import Mathlib

/-!
Verification of the rf95modem-go driver: a shallow embedding of the
library's line parser, fragmenting stream writer, status decoder and
command/dispatch plumbing, with theorems checking the natural-language
specification against the code.

Protocol lines are modelled as `List Char`.  Go `int` values are modelled
as `ℤ` together with the explicit 64-bit range check that
`strconv.Atoi` performs; Go `float64` parsing is idealised to exact
rationals (`ℚ`).  Errors are modelled by kind (a flag or `Unit`), not by
their message text.
-/

namespace RF95

/-- Characters of a string literal, used to write protocol lines. -/
def strL (s : String) : List Char := s.data

/-- Character class `[0-9A-Fa-f]` of the RX payload field. -/
def isHexC (c : Char) : Bool :=
  c.isDigit || ('A' ≤ c && c ≤ 'F') || ('a' ≤ c && c ≤ 'f')

/-- Character class `[-0-9]` of the RX rssi/snr fields. -/
def isNumDash (c : Char) : Bool :=
  c = '-' || c.isDigit

/-- Value of one hex digit, as in Go's `encoding/hex` decoding table. -/
def hexVal (c : Char) : Option ℕ :=
  if c.isDigit then some (c.toNat - 48)
  else if 'A' ≤ c && c ≤ 'F' then some (c.toNat - 55)
  else if 'a' ≤ c && c ≤ 'f' then some (c.toNat - 87)
  else none

/-- Go `hex.DecodeString`: fails on an odd number of digits or a
non-hex character, otherwise decodes consecutive digit pairs. -/
def hexDecode : List Char → Option (List ℕ)
  | [] => some []
  | [_] => none
  | a :: b :: rest =>
    match hexVal a, hexVal b, hexDecode rest with
    | some x, some y, some bs => some ((16 * x + y) :: bs)
    | _, _, _ => none

/-- Lower-case hex digit, as in Go's `encoding/hex` encoding table. -/
def hexChar (d : ℕ) : Char :=
  if d < 10 then Char.ofNat (48 + d) else Char.ofNat (87 + d)

/-- Go `hex.EncodeToString`, the encoding `Modem.Transmit` uses for the
`AT+TX=` command: two lower-case hex digits per byte. -/
def hexEncode (bs : List ℕ) : List Char :=
  (bs.map (fun b => [hexChar (b / 16), hexChar (b % 16)])).flatten

/-- Numeric value of a digit string (most significant digit first). -/
def digitsToNat (cs : List Char) : ℕ :=
  cs.foldl (fun a c => 10 * a + (c.toNat - 48)) 0

/-- Go `strconv.Atoi`: an optional single sign, then one or more
decimal digits, rejected when the value overflows a 64-bit `int`. -/
def goAtoi (cs : List Char) : Option ℤ :=
  let (neg, ds) : Bool × List Char :=
    match cs with
    | '+' :: rest => (false, rest)
    | '-' :: rest => (true, rest)
    | _ => (false, cs)
  if ds = [] then none
  else if !ds.all Char.isDigit then none
  else
    let v : ℤ := if neg then -(digitsToNat ds : ℤ) else (digitsToNat ds : ℤ)
    if v < -(2 ^ 63) ∨ 2 ^ 63 - 1 < v then none else some v

/-- `RxMessage` of `modem.go`: payload bytes and the two signed
quality metrics. -/
structure RxMessage where
  Payload : List ℕ
  Rssi : ℤ
  Snr : ℤ
deriving DecidableEq, Repr

/-- One comma (or any expected single character) of the RX line. -/
def expectChar (c : Char) : List Char → Option (List Char)
  | x :: rest => if x = c then some rest else none
  | [] => none

/-- The `+RX ` line header expected by `parsePacketRx`. -/
def stripHdr (cs : List Char) : Option (List Char) := do
  let a ← expectChar '+' cs
  let b ← expectChar 'R' a
  let c ← expectChar 'X' b
  expectChar ' ' c

/-- A maximal nonempty run of characters of one class, mirroring a
greedy `(C+)` regex group followed by a character outside the class. -/
def field (p : Char → Bool) (cs : List Char) : Option (List Char × List Char) :=
  if cs.takeWhile p = [] then none
  else some (cs.takeWhile p, cs.dropWhile p)

/-- `parsePacketRx` of `modem.go`: matches
`^\+RX \d+,([0-9A-Fa-f]+),([-0-9]+),([-0-9]+)\r?\n$` (the character
classes exclude the separators, so the greedy match is deterministic),
then hex-decodes the payload group and `Atoi`-decodes the two quality
groups. -/
def parsePacketRx (cs : List Char) : Option RxMessage := do
  let r0 ← stripHdr cs
  let (_, r0d) ← field Char.isDigit r0
  let r1 ← expectChar ',' r0d
  let (f1, r1d) ← field isHexC r1
  let r2 ← expectChar ',' r1d
  let (f2, r2d) ← field isNumDash r2
  let r3 ← expectChar ',' r2d
  let (f3, tail) ← field isNumDash r3
  if tail = ['\n'] ∨ tail = ['\r', '\n'] then
    let pl ← hexDecode f1
    let r ← goAtoi f2
    let s ← goAtoi f3
    some ⟨pl, r, s⟩
  else none

example : parsePacketRx (strL "+RX 3,414141,-15,8\n") =
    some ⟨[0x41, 0x41, 0x41], -15, 8⟩ := by decide

example : parsePacketRx (strL "+RX 3,ACAB,23,42\n") =
    some ⟨[0xAC, 0xAB], 23, 42⟩ := by decide

example : parsePacketRx (strL "+RX 3,XYZ,23,42\n") = none := by decide

example : parsePacketRx (strL "+RX 3,1234,F3,42\n") = none := by decide

example : parsePacketRx (strL "+RX 3,1234,23,F2\n") = none := by decide

example : parsePacketRx (strL "+RX ,1234,23,32\n") = none := by decide

lemma expectChar_eq_some {c : Char} {cs r : List Char}
    (h : expectChar c cs = some r) : cs = c :: r := by
  cases cs with
  | nil => simp [expectChar] at h
  | cons x t =>
    by_cases hx : x = c
    · subst hx
      simp [expectChar] at h
      rw [h]
    · simp [expectChar, hx] at h

lemma expectChar_cons (c : Char) (r : List Char) :
    expectChar c (c :: r) = some r := by simp [expectChar]

lemma dropWhile_head_false {p : Char → Bool} :
    ∀ {cs r : List Char} {y : Char}, cs.dropWhile p = y :: r → p y = false := by
  intro cs
  induction cs with
  | nil => intro r y h; simp [List.dropWhile] at h
  | cons a t ih =>
    intro r y h
    by_cases hp : p a
    · rw [List.dropWhile_cons_of_pos hp] at h
      exact ih h
    · rw [List.dropWhile_cons_of_neg hp] at h
      cases h
      exact Bool.of_not_eq_true hp

lemma span_take {p : Char → Bool} {xs : List Char} {y : Char} (rest : List Char)
    (hxs : ∀ c ∈ xs, p c = true) (hy : p y = false) :
    (xs ++ y :: rest).takeWhile p = xs := by
  induction xs with
  | nil => simp [List.takeWhile_cons, hy]
  | cons a t ih =>
    have ha : p a = true := hxs a (by simp)
    simp only [List.cons_append, List.takeWhile_cons, ha]
    simp [ih fun c hc => hxs c (by simp [hc])]

lemma span_drop {p : Char → Bool} {xs : List Char} {y : Char} (rest : List Char)
    (hxs : ∀ c ∈ xs, p c = true) (hy : p y = false) :
    (xs ++ y :: rest).dropWhile p = y :: rest := by
  induction xs with
  | nil => simp [List.dropWhile_cons, hy]
  | cons a t ih =>
    have ha : p a = true := hxs a (by simp)
    simp only [List.cons_append, List.dropWhile_cons, ha]
    exact ih fun c hc => hxs c (by simp [hc])

lemma field_eq_some {p : Char → Bool} {cs f r : List Char}
    (h : field p cs = some (f, r)) :
    f = cs.takeWhile p ∧ r = cs.dropWhile p ∧ f ≠ [] := by
  unfold field at h
  split at h
  · cases h
  · rename_i hne
    cases h
    exact ⟨rfl, rfl, hne⟩

lemma field_append {p : Char → Bool} {xs : List Char} {y : Char} (rest : List Char)
    (hxs : ∀ c ∈ xs, p c = true) (hy : p y = false) (hne : xs ≠ []) :
    field p (xs ++ y :: rest) = some (xs, y :: rest) := by
  unfold field
  rw [span_take rest hxs hy, span_drop rest hxs hy]
  simp [hne]

lemma mem_takeWhile_pred {p : Char → Bool} {cs : List Char} :
    ∀ c ∈ cs.takeWhile p, p c = true := by
  induction cs with
  | nil => simp [List.takeWhile]
  | cons a t ih =>
    by_cases hp : p a
    · rw [List.takeWhile_cons_of_pos hp]
      intro c hc
      rcases List.mem_cons.mp hc with h | h
      · subst h; exact hp
      · exact ih c h
    · rw [List.takeWhile_cons_of_neg hp]
      simp

/-- Constructing direction: a line of the wire-grammar shape parses to
exactly the decoded fields. -/
lemma parse_mk {seq f1 f2 f3 t : List Char} {pl : List ℕ} {r s : ℤ}
    (hseq : seq ≠ []) (hseqd : ∀ c ∈ seq, Char.isDigit c = true)
    (hf1 : f1 ≠ []) (hf1h : ∀ c ∈ f1, isHexC c = true)
    (hf2 : f2 ≠ []) (hf2c : ∀ c ∈ f2, isNumDash c = true)
    (hf3 : f3 ≠ []) (hf3c : ∀ c ∈ f3, isNumDash c = true)
    (ht : t = ['\n'] ∨ t = ['\r', '\n'])
    (hpl : hexDecode f1 = some pl) (hr : goAtoi f2 = some r) (hs : goAtoi f3 = some s) :
    parsePacketRx ('+' :: 'R' :: 'X' :: ' ' ::
      (seq ++ ',' :: (f1 ++ ',' :: (f2 ++ ',' :: (f3 ++ t))))) = some ⟨pl, r, s⟩ := by
  have hcomma : ∀ p : Char → Bool, p ',' = false → False ∨ True := by intro _ _; right; trivial
  have h1 : Char.isDigit ',' = false := by decide
  have h2 : isHexC ',' = false := by decide
  have h3 : isNumDash ',' = false := by decide
  have hdr : stripHdr ('+' :: 'R' :: 'X' :: ' ' ::
      (seq ++ ',' :: (f1 ++ ',' :: (f2 ++ ',' :: (f3 ++ t))))) =
      some (seq ++ ',' :: (f1 ++ ',' :: (f2 ++ ',' :: (f3 ++ t)))) := by
    simp [stripHdr, expectChar]
  have hfield3 : field isNumDash (f3 ++ t) = some (f3, t) := by
    rcases ht with ht | ht <;> subst ht
    · exact field_append _ hf3c (by decide) hf3
    · exact field_append _ hf3c (by decide) hf3
  have htt : (t = ['\n'] ∨ t = ['\r', '\n']) := ht
  unfold parsePacketRx
  rw [hdr]
  simp only [Option.bind_eq_bind, Option.some_bind]
  rw [field_append _ hseqd h1 hseq]
  simp only [Option.some_bind]
  rw [expectChar_cons]
  simp only [Option.some_bind]
  rw [field_append _ hf1h h2 hf1]
  simp only [Option.some_bind]
  rw [expectChar_cons]
  simp only [Option.some_bind]
  rw [field_append _ hf2c h3 hf2]
  simp only [Option.some_bind]
  rw [expectChar_cons]
  simp only [Option.some_bind]
  rw [hfield3]
  simp only [Option.some_bind]
  rw [if_pos htt, hpl, hr, hs]
  simp

/-- Destructing direction: a successful parse exposes the
wire-grammar decomposition of the line. -/
lemma parse_sound {cs : List Char} {rx : RxMessage}
    (h : parsePacketRx cs = some rx) :
    ∃ seq f1 f2 f3 t,
      cs = '+' :: 'R' :: 'X' :: ' ' ::
        (seq ++ ',' :: (f1 ++ ',' :: (f2 ++ ',' :: (f3 ++ t)))) ∧
      seq ≠ [] ∧ (∀ c ∈ seq, Char.isDigit c = true) ∧
      f1 ≠ [] ∧ (∀ c ∈ f1, isHexC c = true) ∧
      f2 ≠ [] ∧ (∀ c ∈ f2, isNumDash c = true) ∧
      f3 ≠ [] ∧ (∀ c ∈ f3, isNumDash c = true) ∧
      (t = ['\n'] ∨ t = ['\r', '\n']) ∧
      hexDecode f1 = some rx.Payload ∧
      goAtoi f2 = some rx.Rssi ∧ goAtoi f3 = some rx.Snr := by
  unfold parsePacketRx at h
  simp only [Option.bind_eq_bind, Option.bind_eq_some] at h
  obtain ⟨r0, hr0, ⟨seq, r0d⟩, hfd, r1, hc1, ⟨f1, r1d⟩, hfd1, r2, hc2,
    ⟨f2, r2d⟩, hfd2, r3, hc3, ⟨f3, tl⟩, hfd3, hrest⟩ := h
  dsimp only at hc1 hc2 hc3 hrest
  -- header
  have hhdr : cs = '+' :: 'R' :: 'X' :: ' ' :: r0 := by
    unfold stripHdr at hr0
    simp only [Option.bind_eq_bind, Option.bind_eq_some] at hr0
    obtain ⟨a, ha, b, hb, c, hc, hd⟩ := hr0
    rw [expectChar_eq_some ha, expectChar_eq_some hb, expectChar_eq_some hc,
      expectChar_eq_some hd]
  obtain ⟨hseq_eq, hr0d_eq, hseq_ne⟩ := field_eq_some hfd
  obtain ⟨hf1_eq, hr1d_eq, hf1_ne⟩ := field_eq_some hfd1
  obtain ⟨hf2_eq, hr2d_eq, hf2_ne⟩ := field_eq_some hfd2
  obtain ⟨hf3_eq, htl_eq, hf3_ne⟩ := field_eq_some hfd3
  -- the final stage
  split at hrest
  · rename_i htail
    simp only [Option.bind_eq_some] at hrest
    obtain ⟨pl, hpl, rr, hrr, ss, hss, hfin⟩ := hrest
    cases hfin
    refine ⟨seq, f1, f2, f3, tl, ?_, hseq_ne, ?_, hf1_ne, ?_, hf2_ne, ?_, hf3_ne, ?_,
      htail, hpl, hrr, hss⟩
    · rw [hhdr]
      congr 1
      have e0 : r0 = seq ++ r0d := by
        rw [hseq_eq, hr0d_eq]; exact (List.takeWhile_append_dropWhile _ _).symm
      have e1 : r1 = f1 ++ r1d := by
        rw [hf1_eq, hr1d_eq]; exact (List.takeWhile_append_dropWhile _ _).symm
      have e2 : r2 = f2 ++ r2d := by
        rw [hf2_eq, hr2d_eq]; exact (List.takeWhile_append_dropWhile _ _).symm
      have e3 : r3 = f3 ++ tl := by
        rw [hf3_eq, htl_eq]; exact (List.takeWhile_append_dropWhile _ _).symm
      rw [e0, expectChar_eq_some hc1, e1, expectChar_eq_some hc2, e2,
        expectChar_eq_some hc3, e3]
    · rw [hseq_eq]; exact mem_takeWhile_pred
    · rw [hf1_eq]; exact mem_takeWhile_pred
    · rw [hf2_eq]; exact mem_takeWhile_pred
    · rw [hf3_eq]; exact mem_takeWhile_pred
  · cases hrest

/-- C1: `parsePacketRx` accepts exactly the event-line wire grammar.
A parse succeeds precisely on lines
`+RX <digits>,<hex>,<[-0-9]+>,<[-0-9]+>` with optional `\r` before the
final `\n`, where the payload group hex-decodes to the message payload
and the two quality groups `Atoi`-decode to `Rssi` and `Snr`; every
other line (non-hex payload, non-numeric quality field, malformed
prefix) yields an error and no event record. -/
theorem parsePacketRx_wire_grammar_iff (cs : List Char) (rx : RxMessage) :
    parsePacketRx cs = some rx ↔
      ∃ seq f1 f2 f3 t,
        cs = '+' :: 'R' :: 'X' :: ' ' ::
          (seq ++ ',' :: (f1 ++ ',' :: (f2 ++ ',' :: (f3 ++ t)))) ∧
        seq ≠ [] ∧ (∀ c ∈ seq, Char.isDigit c = true) ∧
        f1 ≠ [] ∧ (∀ c ∈ f1, isHexC c = true) ∧
        f2 ≠ [] ∧ (∀ c ∈ f2, isNumDash c = true) ∧
        f3 ≠ [] ∧ (∀ c ∈ f3, isNumDash c = true) ∧
        (t = ['\n'] ∨ t = ['\r', '\n']) ∧
        hexDecode f1 = some rx.Payload ∧
        goAtoi f2 = some rx.Rssi ∧ goAtoi f3 = some rx.Snr := by
  constructor
  · exact parse_sound
  · rintro ⟨seq, f1, f2, f3, t, hcs, hseq, hseqd, hf1, hf1h, hf2, hf2c, hf3, hf3c,
      ht, hpl, hr, hs⟩
    subst hcs
    exact parse_mk hseq hseqd hf1 hf1h hf2 hf2c hf3 hf3c ht hpl hr hs

lemma hexDecode_eq_nil : ∀ {cs : List Char}, hexDecode cs = some [] → cs = [] := by
  intro cs h
  match cs, h with
  | [], _ => rfl
  | [x], h => simp [hexDecode] at h
  | a :: b :: t, h =>
    unfold hexDecode at h
    split at h
    · cases h
    · cases h

lemma isHexC_hexChar : ∀ d, d < 16 → isHexC (hexChar d) = true := by decide

lemma hexVal_hexChar : ∀ d, d < 16 → hexVal (hexChar d) = some d := by decide

lemma hexEncode_cons (b : ℕ) (t : List ℕ) :
    hexEncode (b :: t) = hexChar (b / 16) :: hexChar (b % 16) :: hexEncode t := by
  simp [hexEncode]

lemma hexEncode_ne_nil {bs : List ℕ} (h : bs ≠ []) : hexEncode bs ≠ [] := by
  cases bs with
  | nil => exact absurd rfl h
  | cons b t => rw [hexEncode_cons]; simp

lemma mem_hexEncode_isHex {bs : List ℕ} (hb : ∀ b ∈ bs, b < 256) :
    ∀ c ∈ hexEncode bs, isHexC c = true := by
  induction bs with
  | nil => simp [hexEncode]
  | cons b t ih =>
    intro c hc
    rw [hexEncode_cons] at hc
    have hb0 : b < 256 := hb b (by simp)
    have hdiv : b / 16 < 16 := by omega
    have hmod : b % 16 < 16 := Nat.mod_lt _ (by omega)
    rcases List.mem_cons.mp hc with h | hc
    · subst h; exact isHexC_hexChar _ hdiv
    rcases List.mem_cons.mp hc with h | hc
    · subst h; exact isHexC_hexChar _ hmod
    · exact ih (fun x hx => hb x (by simp [hx])) c hc

/-- Round-trip of Go's `encoding/hex` on byte values 0–255. -/
lemma hexDecode_hexEncode {bs : List ℕ} (hb : ∀ b ∈ bs, b < 256) :
    hexDecode (hexEncode bs) = some bs := by
  induction bs with
  | nil => simp [hexEncode, hexDecode]
  | cons b t ih =>
    have hb0 : b < 256 := hb b (by simp)
    have hdiv : b / 16 < 16 := by omega
    have hmod : b % 16 < 16 := Nat.mod_lt _ (by omega)
    rw [hexEncode_cons]
    unfold hexDecode
    rw [hexVal_hexChar _ hdiv, hexVal_hexChar _ hmod,
      ih (fun x hx => hb x (by simp [hx]))]
    simp [Nat.div_add_mod b 16]

/-- C2 counterexample: the claim quantifies over every byte sequence,
but for the empty sequence the encoded payload field is empty and
`parsePacketRx` rejects the resulting event line, so the round trip
recovers nothing. -/
theorem roundtrip_empty_payload_fails :
    hexEncode [] = [] ∧
    parsePacketRx (strL "+RX 3," ++ (hexEncode [] ++ strL ",-15,8\n")) = none := by
  constructor
  · rfl
  · decide

/-- C2 (amended): for every nonempty byte sequence, with every byte
value 0–255 allowed in every position, encoding with the hex encoding
`Transmit` uses and parsing an event line carrying that hex string as
its payload field recovers exactly the original bytes. -/
theorem transmit_rx_hex_roundtrip (bs : List ℕ) (hne : bs ≠ [])
    (hb : ∀ b ∈ bs, b < 256) :
    parsePacketRx (strL "+RX 3," ++ (hexEncode bs ++ strL ",-15,8\n")) =
      some ⟨bs, -15, 8⟩ := by
  have hshape : strL "+RX 3," ++ (hexEncode bs ++ strL ",-15,8\n") =
      '+' :: 'R' :: 'X' :: ' ' ::
        (['3'] ++ ',' :: (hexEncode bs ++ ',' ::
          (['-', '1', '5'] ++ ',' :: (['8'] ++ ['\n'])))) := by
    simp [strL]
  rw [hshape]
  exact parse_mk (by simp) (by decide) (hexEncode_ne_nil hne) (mem_hexEncode_isHex hb)
    (by simp) (by decide) (by simp) (by decide) (Or.inl rfl)
    (hexDecode_hexEncode hb) (by decide) (by decide)

/-- C2 witness: the round trip at a concrete nonempty payload
covering low, middle and high byte values. -/
theorem transmit_rx_hex_roundtrip_witness :
    parsePacketRx (strL "+RX 3," ++ (hexEncode [0, 171, 255] ++ strL ",-15,8\n")) =
      some ⟨[0, 171, 255], -15, 8⟩ :=
  transmit_rx_hex_roundtrip [0, 171, 255] (by decide) (by decide)

/-- C10: every successfully parsed event record has a payload of at
least one byte — the payload group needs at least one hex digit — and
the event line with an empty payload field is rejected as malformed. -/
theorem rx_payload_nonempty :
    (∀ cs rx, parsePacketRx cs = some rx → 1 ≤ rx.Payload.length) ∧
    parsePacketRx (strL "+RX 3,,-15,8\n") = none := by
  constructor
  · intro cs rx h
    obtain ⟨seq, f1, f2, f3, t, _, _, _, hf1ne, _, _, _, _, _, _, hpl, _, _⟩ :=
      parse_sound h
    cases hp : rx.Payload with
    | nil => exact absurd (hexDecode_eq_nil (hp ▸ hpl)) hf1ne
    | cons a l => simp
  · decide

/-- C10 witness: a concrete parsed record has a nonempty payload. -/
theorem rx_payload_nonempty_witness :
    1 ≤ (RxMessage.mk [65] 0 0).Payload.length :=
  rx_payload_nonempty.1 (strL "+RX 1,41,0,0\n") ⟨[65], 0, 0⟩ (by decide)

/-!
## The byte-stream adapter's fragmenting write

`Stream.Write` of `stream.go` is a loop over a position into the input:
each iteration loads the MTU, takes the chunk `p[pos:min(pos+mtu,len(p))]`,
transmits it, adds the reported count to `n`, stops on a transmit error
and otherwise advances `pos` by the MTU.  The claims fix the MTU to a
constant `M`, so the per-iteration atomic load always yields `M`.
Transmit is a parameter returning the reported count and an error flag
(Go's `Transmit` returns `0` together with any error).  The loop is
step-indexed with fuel; `none` means the loop has not terminated within
the given number of iterations. -/
def writeLoop (tx : List ℕ → ℕ × Bool) (M : ℕ) (p : List ℕ) :
    ℕ → ℕ → ℕ → List (List ℕ) → Option (List (List ℕ) × ℕ × Bool)
  | 0, _, _, _ => none
  | fuel + 1, pos, n, calls =>
    if pos < p.length then
      let chunk := (p.drop pos).take M
      let t := tx chunk
      if t.2 then some (calls ++ [chunk], n + t.1, true)
      else writeLoop tx M p fuel (pos + M) (n + t.1) (calls ++ [chunk])
    else some (calls, n, false)

/-- The transmit of the claims: every call succeeds and reports the
chunk's length as sent. -/
def okTx : List ℕ → ℕ × Bool := fun c => (c.length, false)

example : writeLoop okTx 2 [1, 2, 3, 4, 5] 6 0 0 [] =
    some ([[1, 2], [3, 4], [5]], 5, false) := by decide

lemma ceil_step {a M : ℕ} (hM : 1 ≤ M) (ha : 1 ≤ a) :
    (a + (M - 1)) / M = (a - M + (M - 1)) / M + 1 := by
  rcases Nat.lt_or_ge a M with h | h
  · have h0 : a - M = 0 := by omega
    have e1 : a + (M - 1) = (a - 1) + M := by omega
    rw [h0, e1, Nat.add_div_right _ (by omega)]
    rw [Nat.div_eq_of_lt (show a - 1 < M by omega),
      Nat.div_eq_of_lt (show 0 + (M - 1) < M by omega)]
  · have h2 : a + (M - 1) = (a - M + (M - 1)) + M := by omega
    rw [h2, Nat.add_div_right _ (by omega)]

/-- Main invariant of the fragmenting write with an always-succeeding
transmit: from position `pos`, with enough fuel, the loop terminates
without error, issues `⌈(L - pos)/M⌉` further transmits whose chunks
are bounded by `M` and concatenate to the remaining input, and adds the
remaining length to the running count. -/
lemma writeLoop_ok {M : ℕ} (hM : 1 ≤ M) (p : List ℕ) :
    ∀ fuel pos n calls, p.length - pos + 1 ≤ fuel →
      ∃ C, writeLoop okTx M p fuel pos n calls =
          some (calls ++ C, n + (p.length - pos), false) ∧
        C.flatten = p.drop pos ∧
        C.length = (p.length - pos + (M - 1)) / M ∧
        ∀ c ∈ C, c.length ≤ M := by
  intro fuel
  induction fuel with
  | zero => intro pos n calls h; omega
  | succ fuel ih =>
    intro pos n calls h
    by_cases hpos : pos < p.length
    · have hchunklen : ((p.drop pos).take M).length = min M (p.length - pos) := by
        simp [List.length_take, List.length_drop]
      obtain ⟨C', hC', hflat, hcount, hbound⟩ :=
        ih (pos + M) (n + ((p.drop pos).take M).length)
          (calls ++ [(p.drop pos).take M]) (by omega)
      refine ⟨(p.drop pos).take M :: C', ?_, ?_, ?_, ?_⟩
      · have e2 : n + ((p.drop pos).take M).length + (p.length - (pos + M)) =
            n + (p.length - pos) := by
          rw [hchunklen]; omega
        rw [writeLoop]
        simp only [if_pos hpos, okTx, Bool.false_eq_true, if_false]
        rw [hC']
        simp only [List.append_assoc, List.singleton_append]
        rw [e2]
      · rw [List.flatten_cons, hflat]
        have : (p.drop pos).drop M = p.drop (pos + M) := by
          rw [List.drop_drop]
        rw [← this, List.take_append_drop]
      · rw [List.length_cons, hcount]
        have := ceil_step hM (a := p.length - pos) (by omega)
        have e : p.length - (pos + M) = p.length - pos - M := by omega
        rw [e]
        omega
      · intro c hc
        rcases List.mem_cons.mp hc with h | h
        · subst h; rw [hchunklen]; omega
        · exact hbound c h
    · refine ⟨[], ?_, ?_, ?_, by simp⟩
      · rw [writeLoop]
        simp only [if_neg hpos]
        have e : p.length - pos = 0 := by omega
        simp [e]
      · rw [List.flatten_nil, List.drop_eq_nil_of_le (by omega)]
      · have e : p.length - pos = 0 := by omega
        rw [e]
        simp [Nat.div_eq_of_lt (show M - 1 < M by omega)]

/-- C3: with a fixed maximum payload size `M ≥ 1` and every transmit
succeeding and reporting its chunk's length, the fragmenting write on
an input of length `L` terminates, issues exactly `⌈L/M⌉` transmit
calls, no chunk exceeds `M` bytes, the chunks concatenate in order to
the input, and the returned count equals `L`. -/
theorem stream_write_fragments (p : List ℕ) (M : ℕ) (hM : 1 ≤ M) :
    ∃ C, writeLoop okTx M p (p.length + 1) 0 0 [] = some (C, p.length, false) ∧
      C.length = (p.length + (M - 1)) / M ∧
      (∀ c ∈ C, c.length ≤ M) ∧
      C.flatten = p := by
  obtain ⟨C, hw, hflat, hcount, hbound⟩ :=
    writeLoop_ok hM p (p.length + 1) 0 0 [] (by omega)
  refine ⟨C, ?_, by simpa using hcount, hbound, by simpa using hflat⟩
  simpa using hw

/-- C3 witness: a concrete run with `L = 5`, `M = 2` issues
`⌈5/2⌉ = 3` transmits and reports 5 bytes sent. -/
theorem stream_write_fragments_witness :
    ∃ C, writeLoop okTx 2 [1, 2, 3, 4, 5] 6 0 0 [] = some (C, 5, false) ∧
      C.length = 3 ∧ (∀ c ∈ C, c.length ≤ 2) ∧ C.flatten = [1, 2, 3, 4, 5] := by
  obtain ⟨C, h1, h2, h3, h4⟩ := stream_write_fragments [1, 2, 3, 4, 5] 2 (by omega)
  exact ⟨C, h1, h2, h3, h4⟩

lemma writeLoop_mtu_zero_stuck {tx : List ℕ → ℕ × Bool}
    (htx : ∀ c, (tx c).2 = false) (p : List ℕ) :
    ∀ fuel pos n calls, pos < p.length →
      writeLoop tx 0 p fuel pos n calls = none := by
  intro fuel
  induction fuel with
  | zero => intro pos n calls _; rw [writeLoop]
  | succ fuel ih =>
    intro pos n calls hpos
    rw [writeLoop]
    simp only [if_pos hpos, htx]
    simp only [Bool.false_eq_true, if_false]
    have : pos + 0 = pos := by omega
    rw [this]
    exact ih pos _ _ hpos

/-- C8: the fragmenting write terminates for every input once the
cached maximum payload size is at least 1, but with the initial cached
value 0 and a nonempty input the position never advances and the loop
never returns, however much fuel it is given, even when every transmit
succeeds. -/
theorem stream_write_termination :
    (∀ (p : List ℕ) (M : ℕ), 1 ≤ M →
      ∃ r, writeLoop okTx M p (p.length + 1) 0 0 [] = some r) ∧
    (∀ (tx : List ℕ → ℕ × Bool), (∀ c, (tx c).2 = false) →
      ∀ (p : List ℕ), p ≠ [] → ∀ fuel, writeLoop tx 0 p fuel 0 0 [] = none) := by
  constructor
  · intro p M hM
    obtain ⟨C, hw, -, -, -⟩ := writeLoop_ok hM p (p.length + 1) 0 0 [] (by omega)
    exact ⟨_, hw⟩
  · intro tx htx p hp fuel
    apply writeLoop_mtu_zero_stuck htx
    cases p with
    | nil => exact absurd rfl hp
    | cons a t => simp

/-- C8 witness: a concrete terminating run with `M = 1` and a concrete
non-returning run with `M = 0` on a nonempty input. -/
theorem stream_write_termination_witness :
    (∃ r, writeLoop okTx 1 [7] 2 0 0 [] = some r) ∧
    writeLoop okTx 0 [7] 100 0 0 [] = none :=
  ⟨stream_write_termination.1 [7] 1 (by omega),
   stream_write_termination.2 okTx (fun _ => rfl) [7] (by simp) 100⟩

/-!
## The status decoder

`Modem.FetchStatus` filters marker lines with `^(\+STATUS:|\+OK|)\r?\n$`,
splits every other line with the greedy `^(.+):[ ]+([^\r]+)\r?\n$` —
modelled by `splitInfoLine`, which tries colon positions from the right,
exactly the leftmost-longest match of the greedy `(.+)` group — trims
the value and dispatches on the key.  A decode failure of one of the
five counter keys sets the error **without returning** (the code's
`err = vErr` carries no `return`), while every other failure returns at
once; the deferred recovery function replaces the status by its zero
value whenever the error is set, which `fetchStatusParse` mirrors.
Go `strings.TrimSpace` is modelled on the ASCII whitespace it trims;
`strconv.ParseFloat` is modelled on plain decimal/exponent syntax with
the float64 overflow bound, keeping the value as an exact rational. -/
def isSpaceGo (c : Char) : Bool :=
  c == ' ' || c == '\t' || c == '\n' || c == Char.ofNat 11 ||
    c == Char.ofNat 12 || c == '\r'

/-- Go `strings.TrimSpace` on ASCII whitespace. -/
def trimSpace (cs : List Char) : List Char :=
  ((cs.dropWhile isSpaceGo).reverse.dropWhile isSpaceGo).reverse

/-- Go `strings.Split(value, " ")`. -/
def splitOnSpace : List Char → List (List Char)
  | [] => [[]]
  | ' ' :: rest => [] :: splitOnSpace rest
  | c :: rest =>
    match splitOnSpace rest with
    | g :: gs => (c :: g) :: gs
    | [] => [[c]]

/-- The part after a candidate colon of the info-line regex: one or
more spaces (greedy, backing off so the `[^\r]+` value group stays
nonempty) followed by the value, which may not contain `\r`. -/
def afterColon (u : List Char) : Option (List Char) :=
  let k := (u.takeWhile (fun c => c == ' ')).length
  if k = 0 then none
  else if k < u.length then
    let v := u.drop k
    if v.contains '\r' then none else some v
  else if 2 ≤ k then some [' ']
  else none

/-- The greedy `^(.+):[ ]+([^\r]+)` match on the line body: colon
positions are tried from the right (longest key first); the key may
not contain a newline. -/
def splitKV (cs : List Char) : Option (List Char × List Char) :=
  ((List.range cs.length).reverse).findSome? (fun i =>
    if 1 ≤ i ∧ cs[i]? = some ':' ∧ ¬(cs.take i).contains '\n' then
      match afterColon (cs.drop (i + 1)) with
      | some v => some (cs.take i, v)
      | none => none
    else none)

/-- The full info-line regex `^(.+):[ ]+([^\r]+)\r?\n$`: final `\n`,
optional `\r` before it, then the greedy key/value split. -/
def splitInfoLine (cs : List Char) : Option (List Char × List Char) :=
  match cs.reverse with
  | '\n' :: rest =>
    splitKV (match rest with
      | '\r' :: r2 => r2.reverse
      | _ => rest.reverse)
  | _ => none

/-- Largest finite `float64`, the overflow bound of `ParseFloat`. -/
def maxFloat64 : ℚ := (2 ^ 53 - 1) * 2 ^ 971

/-- Exponent part of a decimal float literal. -/
def expPart (cs : List Char) : Option ℤ :=
  let (neg, ds) : Bool × List Char :=
    match cs with
    | '+' :: rest => (false, rest)
    | '-' :: rest => (true, rest)
    | _ => (false, cs)
  if ds = [] then none
  else if !ds.all Char.isDigit then none
  else some (if neg then -(digitsToNat ds : ℤ) else (digitsToNat ds : ℤ))

/-- Go `strconv.ParseFloat` on plain decimal syntax
(`[+-]?digits[.digits][eE[+-]digits]`, digits required on at least one
side of the dot), idealised to the exact rational value, rejected past
the float64 overflow bound. -/
def goParseFloat (cs : List Char) : Option ℚ :=
  let (neg, r1) : Bool × List Char :=
    match cs with
    | '+' :: rest => (false, rest)
    | '-' :: rest => (true, rest)
    | _ => (false, cs)
  let ip := r1.takeWhile Char.isDigit
  let r2 := r1.dropWhile Char.isDigit
  let core : Option (ℚ × List Char) :=
    match r2 with
    | '.' :: r3 =>
      let fp := r3.takeWhile Char.isDigit
      let r4 := r3.dropWhile Char.isDigit
      if ip = [] ∧ fp = [] then none
      else some ((digitsToNat ip : ℚ) + (digitsToNat fp : ℚ) / (10 : ℚ) ^ fp.length, r4)
    | _ => if ip = [] then none else some ((digitsToNat ip : ℚ), r2)
  match core with
  | none => none
  | some (m, rest) =>
    let withExp : Option ℚ :=
      match rest with
      | [] => some m
      | 'e' :: re => (expPart re).map (fun e => m * (10 : ℚ) ^ e)
      | 'E' :: re => (expPart re).map (fun e => m * (10 : ℚ) ^ e)
      | _ => none
    match withExp with
    | none => none
    | some q =>
      let v := if neg then -q else q
      if maxFloat64 < |v| then none else some v

/-- `Status` of `modem.go` with its Go zero value as `zeroStatus`. -/
structure Status where
  Firmware : List Char
  Features : List (List Char)
  Mode : ℤ
  Mtu : ℤ
  Frequency : ℚ
  Bfb : ℤ
  RxBad : ℤ
  RxGood : ℤ
  TxGood : ℤ
deriving DecidableEq, Repr

def zeroStatus : Status := ⟨[], [], 0, 0, 0, 0, 0, 0, 0⟩

/-- The five integer counter fields sharing one decode path. -/
inductive CounterKey
  | mtu | bfb | rxBad | rxGood | txGood
deriving DecidableEq, Repr

/-- What one reply line makes `FetchStatus` do: skip it, assign one
field, fail the fetch at once, or — for a counter whose value does not
`Atoi`-decode — assign zero, set the error and continue. -/
inductive InfoAct
  | skip
  | setFirmware (v : List Char)
  | setFeatures (vs : List (List Char))
  | setMode (m : ℤ)
  | setFreq (q : ℚ)
  | setCounter (k : CounterKey) (v : ℤ)
  | counterFail (k : CounterKey)
  | fail
deriving DecidableEq, Repr

def counterAct (k : CounterKey) (value : List Char) : InfoAct :=
  match goAtoi value with
  | some v => .setCounter k v
  | none => .counterFail k

/-- One iteration of the `FetchStatus` reply loop. -/
def classifyInfoLine (cs : List Char) : InfoAct :=
  if cs = strL "+STATUS:\n" ∨ cs = strL "+STATUS:\r\n" ∨ cs = strL "+OK\n" ∨
      cs = strL "+OK\r\n" ∨ cs = strL "\n" ∨ cs = strL "\r\n" then .skip
  else
    match splitInfoLine cs with
    | none => .fail
    | some (key, rawV) =>
      let value := trimSpace rawV
      if key = strL "firmware" then .setFirmware value
      else if key = strL "features" then
        .setFeatures ((splitOnSpace value).map trimSpace)
      else if key = strL "modem config" then
        match value.takeWhile Char.isDigit, value.dropWhile Char.isDigit with
        | ds@(_ :: _), ' ' :: _ =>
          match goAtoi ds with
          | none => .fail
          | some m => if m < 0 ∨ 4 < m then .fail else .setMode m
        | _, _ => .fail
      else if key = strL "frequency" then
        match goParseFloat value with
        | none => .fail
        | some q => .setFreq q
      else if key = strL "max pkt size" then counterAct .mtu value
      else if key = strL "BFB" then counterAct .bfb value
      else if key = strL "rx bad" then counterAct .rxBad value
      else if key = strL "rx good" then counterAct .rxGood value
      else if key = strL "tx good" then counterAct .txGood value
      else if key = strL "rx listener" ∨ key = strL "GPS" then .skip
      else .fail

def setCounterF (st : Status) (k : CounterKey) (v : ℤ) : Status :=
  match k with
  | .mtu => { st with Mtu := v }
  | .bfb => { st with Bfb := v }
  | .rxBad => { st with RxBad := v }
  | .rxGood => { st with RxGood := v }
  | .txGood => { st with TxGood := v }

/-- The reply loop of `FetchStatus`: threads the snapshot being built
and the error flag; `fail` returns at once, `counterFail` records the
error and keeps decoding, everything else continues. -/
def infoLoop : List (List Char) → Status → Bool → Status × Bool
  | [], st, e => (st, e)
  | l :: rest, st, e =>
    match classifyInfoLine l with
    | .skip => infoLoop rest st e
    | .setFirmware v => infoLoop rest { st with Firmware := v } e
    | .setFeatures vs => infoLoop rest { st with Features := vs } e
    | .setMode m => infoLoop rest { st with Mode := m } e
    | .setFreq q => infoLoop rest { st with Frequency := q } e
    | .setCounter k v => infoLoop rest (setCounterF st k v) e
    | .counterFail k => infoLoop rest (setCounterF st k 0) true
    | .fail => (st, true)

/-- `FetchStatus` on its collected reply lines, including the deferred
function that zeroes the snapshot whenever the error is set. -/
def fetchStatusParse (msgs : List (List Char)) : Status × Bool :=
  let r := infoLoop msgs zeroStatus false
  if r.2 then (zeroStatus, true) else (r.1, false)

/-- A reply line that `FetchStatus` rejects: an unrecognized key, a
malformed key/value line, or a value failing its expected decode. -/
def infoLineBad (l : List Char) : Bool :=
  match classifyInfoLine l with
  | .fail => true
  | .counterFail _ => true
  | _ => false

lemma infoLoop_err_persists : ∀ (msgs : List (List Char)) (st : Status),
    (infoLoop msgs st true).2 = true := by
  intro msgs
  induction msgs with
  | nil => intro st; rfl
  | cons l rest ih =>
    intro st
    rw [infoLoop]
    cases classifyInfoLine l <;> simp <;> apply ih

lemma infoLoop_bad_err : ∀ (msgs : List (List Char)) (st : Status) (e : Bool),
    (∃ l ∈ msgs, infoLineBad l = true) → (infoLoop msgs st e).2 = true := by
  intro msgs
  induction msgs with
  | nil => rintro st e ⟨l, hl, -⟩; simp at hl
  | cons l rest ih =>
    rintro st e ⟨x, hx, hbad⟩
    rw [infoLoop]
    rcases List.mem_cons.mp hx with h | h
    · subst h
      unfold infoLineBad at hbad
      cases hcl : classifyInfoLine x <;> rw [hcl] at hbad <;>
        first
          | rfl
          | exact infoLoop_err_persists _ _
          | simp at hbad
    · cases classifyInfoLine l <;>
        first
          | rfl
          | exact ih _ _ ⟨x, h, hbad⟩

/-- C5: `FetchStatus` is atomic — whenever the reply lines contain an
unrecognized key, a malformed key/value line, or a value failing its
expected decode, the fetch returns the error together with the zero
`Status`; no partially populated snapshot escapes (the deferred
recovery zeroes it even on the counter path that records the error
without returning early). -/
theorem fetchStatus_atomic_on_bad (msgs : List (List Char))
    (h : ∃ l ∈ msgs, infoLineBad l = true) :
    fetchStatusParse msgs = (zeroStatus, true) := by
  have h2 := infoLoop_bad_err msgs zeroStatus false h
  simp [fetchStatusParse, h2]

/-- C5 witness: a reply block whose counter value fails its decode,
followed by lines that would decode fine, still yields the zero
snapshot with the error set. -/
theorem fetchStatus_atomic_on_bad_witness :
    fetchStatusParse [strL "rx bad:  X\n", strL "rx good:  3\n"] =
      (zeroStatus, true) :=
  fetchStatus_atomic_on_bad _ ⟨strL "rx bad:  X\n", by simp, by decide⟩

/-!
## The command transactor and the handler registry

`Modem.atCommand` of `modem.go` (the context generation) takes the
transactor lock, writes `cmd + "\n"` to the transport **unconditionally**
and only then loops on a `select` between the cancelled context and the
pending-reply queue.  The older `Modem.sendCmdMultiline` of `tx.go` (the
stop-channel generation) instead checks the stop channel first and
writes nothing once the session is stopped.  Both are modelled as
functions from a fixed snapshot of the cancellation state and the
pending reply queue to the transcript of transport writes and the
outcome; Go's `select` picks randomly among ready branches, so the
context-generation loop takes an oracle `sel` consulted only when both
the cancelled context and a queued line are ready; the transport writer
itself is modelled as infallible.  `none` means the call blocks. -/
def atCmdLoop (ctxDone : Bool) (sel : ℕ → Bool) (stopFn : List Char → Bool) :
    ℕ → List (List Char) → List (List Char) →
      Option (List (List Char) × List (List Char) × Bool)
  | _, [], acc => if ctxDone then some (acc, [], true) else none
  | i, l :: rest, acc =>
    if ctxDone && sel i then some (acc, l :: rest, true)
    else if stopFn l then atCmdLoop ctxDone sel stopFn (i + 1) rest (acc ++ [l])
    else some (acc ++ [l], rest, false)

/-- `Modem.atCommand`: the command line is written first, then lines
are read until `stopFn` is false; result is the transcript of writes
and `(lines, remaining queue, eof)`. -/
def atCommand (ctxDone : Bool) (sel : ℕ → Bool) (queue : List (List Char))
    (cmd : List Char) (stopFn : List Char → Bool) :
    List (List Char) × Option (List (List Char) × List (List Char) × Bool) :=
  ([cmd ++ ['\n']], atCmdLoop ctxDone sel stopFn 0 queue [])

/-- `Modem.sendCmdMultiline` of the stop-channel generation: the
`select` with a `default` branch observes the closed stop channel
before anything touches the transport. -/
def sendCmdMultiline (stopped : Bool) (queue : List (List Char))
    (cmd : List Char) (n : ℕ) :
    List (List Char) × Option (List (List Char) × List (List Char) × Bool) :=
  if stopped then ([], some ([], queue, true))
  else if n ≤ queue.length then ([cmd], some (queue.take n, queue.drop n, false))
  else ([cmd], none)

/-- C4 counterexample: with the session already cancelled and no
pending reply lines, `atCommand` still writes the command line to the
transport before failing with the closed-session error — the claim's
"nothing is written to the transport" is false for the current
command transactor. -/
theorem closed_session_transaction_still_writes :
    atCommand true (fun _ => true) [] (strL "AT+INFO") (fun _ => true) =
      ([strL "AT+INFO\n"], some ([], [], true)) ∧
    [strL "AT+INFO\n"] ≠ ([] : List (List Char)) := by
  exact ⟨rfl, by simp [strL]⟩

/-- C4 (amended): a transaction started after shutdown fails with the
closed-session error (`io.EOF`) in both generations, but only
`sendCmdMultiline` leaves the transport untouched; `atCommand` writes
the command line first and then fails (deterministically so when no
reply lines are pending). -/
theorem closed_session_transaction_amended :
    (∀ (queue : List (List Char)) (cmd : List Char) (n : ℕ),
      sendCmdMultiline true queue cmd n = ([], some ([], queue, true))) ∧
    (∀ (sel : ℕ → Bool) (cmd : List Char) (stopFn : List Char → Bool),
      atCommand true sel [] cmd stopFn = ([cmd ++ ['\n']], some ([], [], true))) := by
  constructor
  · intro queue cmd n
    simp [sendCmdMultiline]
  · intro sel cmd stopFn
    simp [atCommand, atCmdLoop]

/-- Decimal digits of a natural number, most significant first. -/
def natDigits (n : ℕ) : List Char :=
  if h : n < 10 then [Char.ofNat (48 + n)]
  else natDigits (n / 10) ++ [Char.ofNat (48 + n % 10)]
termination_by n
decreasing_by exact Nat.div_lt_self (by omega) (by omega)

/-- Go `fmt` `%d` of an `int`. -/
def intToChars (i : ℤ) : List Char :=
  if i < 0 then '-' :: natDigits (-i).toNat else natDigits i.toNat

/-- Go `fmt` `%.2f`, idealised: sign, then the value rounded to two
decimals (half away from zero), with a two-digit fraction. -/
def formatF (q : ℚ) : List Char :=
  let n : ℕ := (⌊|q| * 100 + 1 / 2⌋).toNat
  (if q < 0 then ['-'] else []) ++ natDigits (n / 100) ++
    '.' :: [Char.ofNat (48 + n / 10 % 10), Char.ofNat (48 + n % 10)]

/-- `strings.HasPrefix s pre`. -/
def hasPrefixL : List Char → List Char → Bool
  | _, [] => true
  | [], _ :: _ => false
  | c :: cs, p :: ps => c == p && hasPrefixL cs ps

/-- The registered callbacks of a `Modem`, with the callbacks of both
registries abstract.  Dispatch is modelled as the trace of invocations
(callback, argument) in invocation order. -/
structure ModemState (RH MH : Type) where
  rxHandlers : List RH
  mtuHandlers : List MH

/-- The worker's dispatch of one parsed event record to the RX
handlers, in registration order. -/
def dispatchRx {RH : Type} (rhs : List RH) (m : RxMessage) : List (RH × RxMessage) :=
  rhs.map (fun h => (h, m))

/-- A transaction in the running (not cancelled) session: the oracle is
irrelevant because only the queue branch of the `select` can be ready. -/
def atCommandRun (queue : List (List Char)) (cmd : List Char)
    (stopFn : List Char → Bool) :
    List (List Char) × Option (List (List Char) × List (List Char)) :=
  match atCommand false (fun _ => true) queue cmd stopFn with
  | (w, none) => (w, none)
  | (w, some (lines, rem, _)) => (w, some (lines, rem))

/-- The stop predicate `FetchStatus` passes to `atCommand`: keep
reading while the line does not start with `+OK`. -/
def infoStop : List Char → Bool := fun l => !hasPrefixL l (strL "+OK")

/-- `Modem.refreshMtu`: fetch the status (`AT+INFO` transaction plus
reply decode) and on success deliver the fetched `Mtu` to every
registered MTU handler in registration order, as an invocation trace. -/
def refreshMtuM {MH : Type} (mhs : List MH) (queue : List (List Char)) :
    List (List Char) × Option (Except Unit (List (MH × ℤ)) × List (List Char)) :=
  match atCommandRun queue (strL "AT+INFO") infoStop with
  | (w, none) => (w, none)
  | (w, some (lines, rem)) =>
    match fetchStatusParse lines with
    | (s, e) =>
      if e then (w, some (.error (), rem))
      else (w, some (.ok (mhs.map (fun h => (h, s.Mtu))), rem))

/-- `Modem.Mode`: client-side range check, `AT+MODE=<d>` transaction,
`+OK`-prefixed one-line reply, then `refreshMtu`. -/
def ModeCall {RH MH : Type} (st : ModemState RH MH) (mode : ℤ)
    (queue : List (List Char)) :
    List (List Char) × Option (Except Unit (List (MH × ℤ)) × List (List Char)) :=
  if mode < 0 ∨ 4 < mode then ([], some (.error (), queue))
  else
    match atCommandRun queue (strL "AT+MODE=" ++ intToChars mode) (fun _ => false) with
    | (w, none) => (w, none)
    | (w, some (lines, rem)) =>
      match lines with
      | resp :: _ =>
        if hasPrefixL resp (strL "+OK") then
          match refreshMtuM st.mtuHandlers rem with
          | (w2, r) => (w ++ w2, r)
        else (w, some (.error (), rem))
      | [] => (w, some (.error (), rem))

/-- `Modem.Frequency`: `AT+FREQ=<%.2f>` transaction, `+FREQ: `-prefixed
one-line reply, then `refreshMtu`. -/
def FreqCall {RH MH : Type} (st : ModemState RH MH) (f : ℚ)
    (queue : List (List Char)) :
    List (List Char) × Option (Except Unit (List (MH × ℤ)) × List (List Char)) :=
  match atCommandRun queue (strL "AT+FREQ=" ++ formatF f) (fun _ => false) with
  | (w, none) => (w, none)
  | (w, some (lines, rem)) =>
    match lines with
    | resp :: _ =>
      if hasPrefixL resp (strL "+FREQ: ") then
        match refreshMtuM st.mtuHandlers rem with
        | (w2, r) => (w ++ w2, r)
      else (w, some (.error (), rem))
    | [] => (w, some (.error (), rem))

/-- `Modem.RegisterHandlers`: append the non-nil handlers under the
registry lock, then run `refreshMtu`; the new state is returned even
when the refresh fails (the code performs no rollback). -/
def RegisterHandlersM {RH MH : Type} (st : ModemState RH MH)
    (rxH : Option RH) (mtuH : Option MH) (queue : List (List Char)) :
    ModemState RH MH × List (List Char) ×
      Option (Except Unit (List (MH × ℤ)) × List (List Char)) :=
  let st2 : ModemState RH MH :=
    ⟨st.rxHandlers ++ rxH.toList, st.mtuHandlers ++ mtuH.toList⟩
  let wr := refreshMtuM st2.mtuHandlers queue
  (st2, wr.1, wr.2)

lemma atCommandRun_once (queue : List (List Char)) (resp cmd : List Char) :
    atCommandRun (resp :: queue) cmd (fun _ => false) =
      ([cmd ++ ['\n']], some ([resp], queue)) := by
  simp [atCommandRun, atCommand, atCmdLoop]

lemma refreshMtuM_eval {MH : Type} (mhs : List MH)
    {queue consumed rem : List (List Char)} {s : Status} {e : Bool}
    (hq : atCommandRun queue (strL "AT+INFO") infoStop =
      ([strL "AT+INFO\n"], some (consumed, rem)))
    (hs : fetchStatusParse consumed = (s, e)) :
    refreshMtuM mhs queue =
      ([strL "AT+INFO\n"],
        some (if e then .error () else .ok (mhs.map (fun h => (h, s.Mtu))), rem)) := by
  unfold refreshMtuM
  rw [hq]
  dsimp only
  rw [hs]
  cases e <;> simp

lemma refreshMtuM_writes {MH : Type} (mhs : List MH)
    {queue consumed rem : List (List Char)}
    (hq : atCommandRun queue (strL "AT+INFO") infoStop =
      ([strL "AT+INFO\n"], some (consumed, rem))) :
    (refreshMtuM mhs queue).1 = [strL "AT+INFO\n"] := by
  rcases hfs : fetchStatusParse consumed with ⟨s, e⟩
  rw [refreshMtuM_eval mhs hq hfs]

/-- C6: after a successful `Mode` or `Frequency` call — affirmative
one-line reply with the expected prefix, then a successful status
fetch — the fetched maximum payload size is delivered to every
registered MTU callback exactly once, in registration order (the
invocation trace is exactly the handler list paired with the fetched
`Mtu`), before the call returns. -/
theorem mode_freq_mtu_dispatch {RH MH : Type} (st : ModemState RH MH)
    (mode : ℤ) (hm : 0 ≤ mode ∧ mode ≤ 4)
    (resp respF : List Char)
    (hresp : hasPrefixL resp (strL "+OK") = true)
    (hrespF : hasPrefixL respF (strL "+FREQ: ") = true)
    (f : ℚ) (q2 consumed rem : List (List Char)) (s : Status)
    (hq : atCommandRun q2 (strL "AT+INFO") infoStop =
      ([strL "AT+INFO\n"], some (consumed, rem)))
    (hs : fetchStatusParse consumed = (s, false)) :
    ModeCall st mode (resp :: q2) =
      ([strL "AT+MODE=" ++ intToChars mode ++ ['\n'], strL "AT+INFO\n"],
        some (.ok (st.mtuHandlers.map (fun h => (h, s.Mtu))), rem)) ∧
    FreqCall st f (respF :: q2) =
      ([strL "AT+FREQ=" ++ formatF f ++ ['\n'], strL "AT+INFO\n"],
        some (.ok (st.mtuHandlers.map (fun h => (h, s.Mtu))), rem)) := by
  have hre := refreshMtuM_eval st.mtuHandlers hq hs
  constructor
  · unfold ModeCall
    rw [if_neg (by omega : ¬(mode < 0 ∨ 4 < mode))]
    rw [atCommandRun_once]
    dsimp only
    rw [if_pos hresp, hre]
    simp
  · unfold FreqCall
    rw [atCommandRun_once]
    dsimp only
    rw [if_pos hrespF, hre]
    simp

/-- C6 witness: a concrete `Mode` and `Frequency` run with two
registered MTU callbacks, a `+OK` / `+FREQ: ` reply and a status block
reporting `max pkt size` 251: both callbacks get 251 exactly once, in
order. -/
theorem mode_freq_mtu_dispatch_witness :
    ModeCall (⟨[], [0, 1]⟩ : ModemState Unit ℕ) 0
        (strL "+OK\n" :: [strL "max pkt size:  251\n", strL "+OK\n"]) =
      ([strL "AT+MODE=" ++ intToChars 0 ++ ['\n'], strL "AT+INFO\n"],
        some (.ok [(0, 251), (1, 251)], [])) ∧
    FreqCall (⟨[], [0, 1]⟩ : ModemState Unit ℕ) (8681 / 10)
        (strL "+FREQ: 868.10\n" :: [strL "max pkt size:  251\n", strL "+OK\n"]) =
      ([strL "AT+FREQ=" ++ formatF (8681 / 10) ++ ['\n'], strL "AT+INFO\n"],
        some (.ok [(0, 251), (1, 251)], [])) := by
  have h := mode_freq_mtu_dispatch (⟨[], [0, 1]⟩ : ModemState Unit ℕ) 0
    (by constructor <;> decide) (strL "+OK\n") (strL "+FREQ: 868.10\n")
    (by decide) (by decide) (8681 / 10)
    [strL "max pkt size:  251\n", strL "+OK\n"]
    [strL "max pkt size:  251\n", strL "+OK\n"] []
    (⟨[], [], 0, 251, 0, 0, 0, 0, 0⟩ : Status) (by decide) (by decide)
  simpa using h

/-- C7: every `RegisterHandlers` call runs an immediate synchronous
MTU refresh — the `AT+INFO` status fetch is always issued — and when
the fetch succeeds the freshly registered MTU callback receives the
fetched maximum payload size before the call returns, while a failing
refresh makes `RegisterHandlers` return the error. -/
theorem registerHandlers_triggers_refresh {RH MH : Type} (st : ModemState RH MH)
    (rxH : Option RH) (h : MH) (queue consumed rem : List (List Char))
    (hq : atCommandRun queue (strL "AT+INFO") infoStop =
      ([strL "AT+INFO\n"], some (consumed, rem))) :
    (RegisterHandlersM st rxH (some h) queue).2.1 = [strL "AT+INFO\n"] ∧
    (∀ s : Status, fetchStatusParse consumed = (s, false) →
      RegisterHandlersM st rxH (some h) queue =
        (⟨st.rxHandlers ++ rxH.toList, st.mtuHandlers ++ [h]⟩,
          [strL "AT+INFO\n"],
          some (.ok ((st.mtuHandlers ++ [h]).map (fun x => (x, s.Mtu))), rem)) ∧
      (h, s.Mtu) ∈ (st.mtuHandlers ++ [h]).map (fun x => (x, s.Mtu))) ∧
    (∀ s : Status, fetchStatusParse consumed = (s, true) →
      RegisterHandlersM st rxH (some h) queue =
        (⟨st.rxHandlers ++ rxH.toList, st.mtuHandlers ++ [h]⟩,
          [strL "AT+INFO\n"], some (.error (), rem))) := by
  refine ⟨?_, ?_, ?_⟩
  · simp only [RegisterHandlersM, Option.toList_some]
    exact refreshMtuM_writes _ hq
  · intro s hs
    have hre := refreshMtuM_eval (st.mtuHandlers ++ [h]) hq hs
    constructor
    · simp only [RegisterHandlersM, Option.toList_some]
      simp [hre]
    · simp
  · intro s hs
    have hre := refreshMtuM_eval (st.mtuHandlers ++ [h]) hq hs
    simp only [RegisterHandlersM, Option.toList_some]
    simp [hre]

/-- C7 witness: registering one MTU callback on a fresh state with a
good status block delivers the fetched 251 to it before returning. -/
theorem registerHandlers_triggers_refresh_witness :
    RegisterHandlersM (⟨[], []⟩ : ModemState Unit ℕ) none (some 0)
        [strL "max pkt size:  251\n", strL "+OK\n"] =
      (⟨[], [0]⟩, [strL "AT+INFO\n"], some (.ok [(0, 251)], [])) := by
  have h := (registerHandlers_triggers_refresh (⟨[], []⟩ : ModemState Unit ℕ)
    none 0 [strL "max pkt size:  251\n", strL "+OK\n"]
    [strL "max pkt size:  251\n", strL "+OK\n"] [] (by decide)).2.1
    (⟨[], [], 0, 251, 0, 0, 0, 0, 0⟩ : Status) (by decide)
  simpa using h.1

/-- C9: when the MTU refresh inside `RegisterHandlers` fails, the
handlers passed to it have already been appended and stay registered —
the returned state keeps them, a later event dispatch still invokes
the new RX handler, and a later successful refresh still invokes the
new MTU handler. -/
theorem registerHandlers_error_keeps_handlers {RH MH : Type} (st : ModemState RH MH)
    (rh : RH) (h : MH) (queue consumed rem : List (List Char)) (s : Status)
    (hq : atCommandRun queue (strL "AT+INFO") infoStop =
      ([strL "AT+INFO\n"], some (consumed, rem)))
    (hbad : fetchStatusParse consumed = (s, true)) :
    (RegisterHandlersM st (some rh) (some h) queue).2.2 =
      some (.error (), rem) ∧
    (RegisterHandlersM st (some rh) (some h) queue).1.rxHandlers =
      st.rxHandlers ++ [rh] ∧
    (RegisterHandlersM st (some rh) (some h) queue).1.mtuHandlers =
      st.mtuHandlers ++ [h] ∧
    (∀ m : RxMessage,
      (rh, m) ∈ dispatchRx
        (RegisterHandlersM st (some rh) (some h) queue).1.rxHandlers m) ∧
    (∀ (q2 c2 rem2 : List (List Char)) (s2 : Status),
      atCommandRun q2 (strL "AT+INFO") infoStop =
        ([strL "AT+INFO\n"], some (c2, rem2)) →
      fetchStatusParse c2 = (s2, false) →
      refreshMtuM
          (RegisterHandlersM st (some rh) (some h) queue).1.mtuHandlers q2 =
        ([strL "AT+INFO\n"],
          some (.ok ((st.mtuHandlers ++ [h]).map (fun x => (x, s2.Mtu))),
            rem2))) := by
  have hre := refreshMtuM_eval (st.mtuHandlers ++ [h]) hq hbad
  refine ⟨?_, ?_, ?_, ?_, ?_⟩
  · simp only [RegisterHandlersM, Option.toList_some]
    simp [hre]
  · simp [RegisterHandlersM]
  · simp [RegisterHandlersM]
  · intro m
    simp [RegisterHandlersM, dispatchRx]
  · intro q2 c2 rem2 s2 hq2 hs2
    have hre2 := refreshMtuM_eval (st.mtuHandlers ++ [h]) hq2 hs2
    simp only [RegisterHandlersM, Option.toList_some]
    simp [hre2]

/-- C9 witness: a malformed status block makes the registration
return the error, yet the new handlers are in the returned state and a
later good refresh invokes the new MTU callback. -/
theorem registerHandlers_error_keeps_handlers_witness :
    (RegisterHandlersM (⟨[], []⟩ : ModemState ℕ ℕ) (some 7) (some 0)
        [strL "bogus\n", strL "+OK\n"]).2.2 = some (.error (), []) ∧
    (RegisterHandlersM (⟨[], []⟩ : ModemState ℕ ℕ) (some 7) (some 0)
        [strL "bogus\n", strL "+OK\n"]).1.rxHandlers = [7] ∧
    (RegisterHandlersM (⟨[], []⟩ : ModemState ℕ ℕ) (some 7) (some 0)
        [strL "bogus\n", strL "+OK\n"]).1.mtuHandlers = [0] := by
  have h := registerHandlers_error_keeps_handlers (⟨[], []⟩ : ModemState ℕ ℕ)
    7 0 [strL "bogus\n", strL "+OK\n"] [strL "bogus\n", strL "+OK\n"] []
    zeroStatus (by decide) (by decide)
  exact ⟨h.1, by simpa using h.2.1, by simpa using h.2.2.1⟩

end RF95
